import Mathlib

/-!
Verification of the FlipJump toolchain (assembler + runtime) against its
natural-language specification.  Each Python source artefact is shallowly
embedded as an executable Lean definition:

* `src/src/fjm.py`      — the `.fjm` memory file `Reader` / `Writer`;
* `src/src/fjm_run.py`  — the interpreter loop (`run`), embedded one step
  at a time as `step`;
* `src/src/io_devices/StandardIO.py` — the standard I/O device;
* `src/src/fj_parser.py` — the parser's expression semantic actions and
  namespace (dot-identifier) resolution.

Python `int`s are embedded as `Nat`/`Int` with the explicit masks the code
performs; Python `dict`s as association lists (newest binding first, which
matches `dict` lookup after assignment); fallible code returns `Except` or
`Option`.
-/

namespace FlipJump

/-! ## fjm.py — constants and error type -/

/-- `fj_magic = ord('F') + (ord('J') << 8)` from `fjm.py`. -/
def fj_magic : Nat := 70 + (74 <<< 8)

/-- The supported `.fjm` versions, `SUPPORTED_VERSIONS = {0: 'Base', 1: 'Normal'}`. -/
def SUPPORTED_VERSIONS : List Nat := [0, 1]

/-- The distinct failure points of the reader (`FJReadFjmException` call sites). -/
inductive FJReadError where
  /-- a read of a word mapped by no segment, under `GarbageHandling.Stop` -/
  | GarbageRead
  /-- `get_word` at an unaligned bit-address whose word index is the last one -/
  | EndOfMemory
  /-- bad magic code in `_validate_header` -/
  | BadMagic
  /-- unsupported version in `_validate_header` -/
  | UnsupportedVersion
  /-- nonzero reserved field in `_validate_header` -/
  | BadReserved
deriving DecidableEq

/-- `GarbageHandling(IntEnum)` from `fjm.py`. -/
inductive GarbageHandling where
  | Stop
  | SlowRead
  | OnlyWarning
  | Continue
deriving DecidableEq

/-- Fuel-driven binary digit count (structural recursion on the fuel, so
that it evaluates by kernel reduction; the fuel `n` itself always
suffices). -/
def bitLenGo : Nat → Nat → Nat
  | 0, _ => 0
  | fuel + 1, n => if n = 0 then 0 else bitLenGo fuel (n / 2) + 1

/-- Python's `n.bit_length()` on a non-negative int: the number of binary
digits of `n` (and 0 for 0). -/
def pyBitLength (n : Nat) : Nat := bitLenGo n n

/-! ## fjm.py — the Reader's sparse memory

A `Reader` after loading: word size `w`, the sparse `memory` dict
(association list, most recent binding first), the lazy `zeros_boundaries`
ranges and the garbage policy. -/

/-- Lookup in a Python dict embedded as an association list. -/
def dictLookup (m : List (Nat × Nat)) (k : Nat) : Option Nat :=
  match m with
  | [] => none
  | (k', v) :: rest => if k' = k then some v else dictLookup rest k

/-- `d[k] = v` on a Python dict embedded as an association list: the new
binding shadows any older one. -/
def dictInsert (m : List (Nat × Nat)) (k v : Nat) : List (Nat × Nat) :=
  (k, v) :: m

structure Reader where
  w : Nat
  memory : List (Nat × Nat)
  zeros_boundaries : List (Nat × Nat)
  garbage_handling : GarbageHandling
deriving DecidableEq

/-- `Reader.__getitem__`: mask the address to `w` bits, look it up; on a miss
consult the zero ranges (materializing a 0), otherwise apply the garbage
policy (`Stop` raises; every other policy materializes and returns 0). -/
def Reader.getItem (r : Reader) (address : Nat) : Except FJReadError (Nat × Reader) :=
  let address := address &&& ((1 <<< r.w) - 1)
  match dictLookup r.memory address with
  | some v => .ok (v, r)
  | none =>
    if r.zeros_boundaries.any (fun se => decide (se.1 ≤ address) && decide (address < se.2)) then
      .ok (0, { r with memory := dictInsert r.memory address 0 })
    else
      match r.garbage_handling with
      | .Stop => .error .GarbageRead
      | _ => .ok (0, { r with memory := dictInsert r.memory address 0 })

/-- `Reader.__setitem__`: mask address and value to `w` bits, then store. -/
def Reader.setItem (r : Reader) (address value : Nat) : Reader :=
  let address := address &&& ((1 <<< r.w) - 1)
  let value := value &&& ((1 <<< r.w) - 1)
  { r with memory := dictInsert r.memory address value }

/-- `Reader.bit_address_decompose`: word index
`(bit_address >> (w.bit_length() - 1)) & ((1 << w) - 1)` and bit offset
`bit_address & (w - 1)`. -/
def Reader.bit_address_decompose (r : Reader) (bit_address : Nat) : Nat × Nat :=
  ((bit_address >>> (pyBitLength r.w - 1)) &&& ((1 <<< r.w) - 1),
   bit_address &&& (r.w - 1))

/-- `Reader.read_bit`. -/
def Reader.read_bit (r : Reader) (bit_address : Nat) : Except FJReadError (Nat × Reader) :=
  let p := r.bit_address_decompose bit_address
  match r.getItem p.1 with
  | .error e => .error e
  | .ok (v, r') => .ok ((v >>> p.2) &&& 1, r')

/-- `Reader.write_bit`; `value` is a Python truthiness test (`if value:`). -/
def Reader.write_bit (r : Reader) (bit_address value : Nat) : Except FJReadError Reader :=
  let p := r.bit_address_decompose bit_address
  match r.getItem p.1 with
  | .error e => .error e
  | .ok (v, r') =>
    if value ≠ 0 then .ok (r'.setItem p.1 (v ||| (1 <<< p.2)))
    else .ok (r'.setItem p.1 (v &&& ((1 <<< r'.w) - 1 - (1 <<< p.2))))

/-- `Reader.get_word`: aligned reads return the word; unaligned reads stitch
two consecutive words, erroring at the very last word index. -/
def Reader.get_word (r : Reader) (bit_address : Nat) : Except FJReadError (Nat × Reader) :=
  let p := r.bit_address_decompose bit_address
  if p.2 = 0 then r.getItem p.1
  else if p.1 = (1 <<< r.w) - 1 then .error .EndOfMemory
  else
    match r.getItem p.1 with
    | .error e => .error e
    | .ok (lsw, r1) =>
      match r1.getItem (p.1 + 1) with
      | .error e => .error e
      | .ok (msw, r2) =>
        .ok (((lsw >>> p.2) ||| (msw <<< (r.w - p.2))) &&& ((1 <<< r.w) - 1), r2)

/-! ## Arithmetic helper lemmas on Nat bit operations -/

lemma shiftLeft_one_eq_pow (n : Nat) : 1 <<< n = 2 ^ n := by
  rw [Nat.shiftLeft_eq, one_mul]

lemma shiftRight_and_one (y i : Nat) :
    (y >>> i) &&& 1 = if y.testBit i then 1 else 0 := by
  rw [Nat.and_one_is_mod, Nat.shiftRight_eq_div_pow, Nat.testBit_to_div_mod]
  rcases Nat.mod_two_eq_zero_or_one (y / 2 ^ i) with h | h <;> simp [h]

lemma and_mask_idem (x m : Nat) : (x &&& m) &&& m = x &&& m := by
  rw [Nat.and_assoc, Nat.and_self]

/-- Bit `bit` of `2^w - 1 - 2^bit` (the clearing mask used by `write_bit`)
is zero whenever `bit < w`. -/
lemma testBit_mask_sub_pow (w bit : Nat) (h : bit < w) :
    (2 ^ w - 1 - 2 ^ bit).testBit bit = false := by
  obtain ⟨c', hc⟩ : ∃ c', 2 ^ (w - bit - 1) = c' + 1 :=
    ⟨2 ^ (w - bit - 1) - 1, by have := Nat.one_le_two_pow (n := w - bit - 1); omega⟩
  have hp : (1 : Nat) ≤ 2 ^ bit := Nat.one_le_two_pow
  have e1 : 2 ^ w = 2 * (2 ^ bit * c') + 2 * 2 ^ bit := by
    have hsplit : 2 ^ w = 2 ^ (bit + 1) * 2 ^ (w - bit - 1) := by
      rw [← pow_add]; congr 1; omega
    rw [hsplit, hc, pow_succ]; ring
  have key : 2 ^ w - 1 - 2 ^ bit = 2 ^ bit * (2 * c') + (2 ^ bit - 1) := by
    have e2 : 2 ^ bit * (2 * c') = 2 * (2 ^ bit * c') := by ring
    rw [e1, e2]
    generalize 2 ^ bit * c' = T
    omega
  have hd : (2 ^ bit * (2 * c') + (2 ^ bit - 1)) / 2 ^ bit = 2 * c' := by
    rw [Nat.mul_add_div (by omega), Nat.div_eq_of_lt (by omega)]
    omega
  rw [Nat.testBit_to_div_mod, key, hd]
  simp [Nat.mul_mod_right]

/-- Bit `bit` of the value stored by `write_bit`'s set branch is one. -/
lemma testBit_set_branch (x w bit : Nat) (h : bit < w) :
    ((x ||| 1 <<< bit) &&& ((1 <<< w) - 1)).testBit bit = true := by
  simp [Nat.testBit_land, Nat.testBit_lor, shiftLeft_one_eq_pow,
    Nat.testBit_two_pow, Nat.testBit_two_pow_sub_one, h]

/-- Bit `bit` of the value stored by `write_bit`'s clear branch is zero. -/
lemma testBit_clear_branch (x w bit : Nat) (h : bit < w) :
    ((x &&& ((1 <<< w) - 1 - 1 <<< bit)) &&& ((1 <<< w) - 1)).testBit bit = false := by
  simp [Nat.testBit_land, shiftLeft_one_eq_pow, testBit_mask_sub_pow w bit h]

/-! ## Structural helper lemmas on the Reader -/

lemma dictLookup_insert_self (m : List (Nat × Nat)) (k v : Nat) :
    dictLookup (dictInsert m k v) k = some v := by
  simp [dictLookup, dictInsert]

lemma Reader.setItem_w (r : Reader) (a v : Nat) : (r.setItem a v).w = r.w := rfl

/-- `__getitem__` either raises the garbage error or returns a reader that
differs from the input only in its `memory` dict. -/
lemma Reader.getItem_cases (r : Reader) (a : Nat) :
    r.getItem a = .error .GarbageRead ∨
    ∃ v m, r.getItem a = .ok (v, { r with memory := m }) := by
  simp only [Reader.getItem]
  split
  · exact .inr ⟨_, _, rfl⟩
  · split
    · exact .inr ⟨_, _, rfl⟩
    · split <;> first | exact .inl rfl | exact .inr ⟨_, _, rfl⟩

lemma Reader.getItem_w {r r' : Reader} {a v : Nat}
    (h : r.getItem a = .ok (v, r')) : r'.w = r.w := by
  rcases r.getItem_cases a with hc | ⟨v', m, hc⟩ <;> rw [hc] at h
  · cases h
  · cases h; rfl

/-- Reading back the bit just stored by `setItem` at a decomposed word index. -/
lemma Reader.read_bit_after_setItem (r1 : Reader) (b val a bit : Nat)
    (hdec1 : r1.bit_address_decompose b = (a, bit)) :
    (r1.setItem a val).read_bit b =
      .ok (((val &&& ((1 <<< r1.w) - 1)) >>> bit) &&& 1, r1.setItem a val) := by
  have ha : a = (b >>> (pyBitLength r1.w - 1)) &&& ((1 <<< r1.w) - 1) :=
    (congrArg Prod.fst hdec1).symm
  have hidem : a &&& ((1 <<< r1.w) - 1) = a := by
    rw [ha]; exact and_mask_idem _ _
  have hdec2 : (r1.setItem a val).bit_address_decompose b = (a, bit) := hdec1
  have hget : (r1.setItem a val).getItem a =
      .ok (val &&& ((1 <<< r1.w) - 1), r1.setItem a val) := by
    simp [Reader.getItem, Reader.setItem, hidem, dictLookup_insert_self]
  simp only [Reader.read_bit, hdec2, hget]

/-- **C4**: `get_word` returns the word directly at an aligned bit-address,
stitches two consecutive words `lsw`, `msw` into
`((lsw >> bit) | (msw << (w - bit))) & mask_w` at an unaligned one, and
raises the end-of-memory error when the unaligned word index is the last
valid index `2^w - 1`. -/
theorem C4_get_word_cases (r : Reader) (b a bit : Nat)
    (hdec : r.bit_address_decompose b = (a, bit)) :
    (bit = 0 → r.get_word b = r.getItem a) ∧
    (bit ≠ 0 → a = (1 <<< r.w) - 1 → r.get_word b = .error .EndOfMemory) ∧
    (∀ lsw msw r1 r2, bit ≠ 0 → a ≠ (1 <<< r.w) - 1 →
      r.getItem a = .ok (lsw, r1) → r1.getItem (a + 1) = .ok (msw, r2) →
      r.get_word b =
        .ok (((lsw >>> bit) ||| (msw <<< (r.w - bit))) &&& ((1 <<< r.w) - 1), r2)) := by
  refine ⟨?_, ?_, ?_⟩
  · intro h0
    simp [Reader.get_word, hdec, h0]
  · intro hb ha
    simp [Reader.get_word, hdec, hb, ha]
  · intro lsw msw r1 r2 hb ha h1 h2
    simp [Reader.get_word, hdec, hb, ha, h1, h2]

/-- Witness for C4: with `w = 8`, `mem = {0 ↦ 0xAB, 1 ↦ 0xCD}`, the unaligned
read at bit-address 4 yields `((0xAB >> 4) | (0xCD << 4)) & 0xFF = 0xDA`. -/
theorem C4_get_word_cases_witness :
    (⟨8, [(0, 171), (1, 205)], [], .Stop⟩ : Reader).get_word 4 =
      .ok (218, ⟨8, [(0, 171), (1, 205)], [], .Stop⟩) :=
  (C4_get_word_cases ⟨8, [(0, 171), (1, 205)], [], .Stop⟩ 4 0 4 (by decide)).2.2
    171 205 _ _ (by decide) (by decide) rfl rfl

/-- **C10**: every `Reader` access reduces the word address modulo `2^w`:
`__getitem__` and `__setitem__` behave identically on addresses congruent
modulo `2^w` (so a large address never fails merely for being large),
`__setitem__` truncates the stored value to `w` bits, and
`bit_address_decompose` masks the word index with `2^w - 1` and the bit
offset with `w - 1`. -/
theorem C10_address_masking (r : Reader) (a b v : Nat)
    (hab : a % 2 ^ r.w = b % 2 ^ r.w) :
    r.getItem a = r.getItem b ∧
    r.setItem a v = r.setItem b v ∧
    (r.setItem a v).memory = dictInsert r.memory (a % 2 ^ r.w) (v % 2 ^ r.w) ∧
    (r.bit_address_decompose a).1 = (a >>> (pyBitLength r.w - 1)) % 2 ^ r.w ∧
    (r.bit_address_decompose a).2 = a &&& (r.w - 1) := by
  have hmask : ∀ x : Nat, x &&& ((1 <<< r.w) - 1) = x % 2 ^ r.w := fun x => by
    rw [shiftLeft_one_eq_pow, Nat.and_pow_two_sub_one_eq_mod]
  refine ⟨?_, ?_, ?_, ?_, rfl⟩
  · simp only [Reader.getItem, hmask, hab]
  · simp only [Reader.setItem, hmask, hab]
  · simp only [Reader.setItem, hmask]
  · simp only [Reader.bit_address_decompose, hmask]

/-- Witness for C10: addresses 1 and 257 (congruent mod `2^8`) read the same
memory cell. -/
theorem C10_address_masking_witness :
    (⟨8, [(1, 5)], [], .Continue⟩ : Reader).getItem 1 =
      (⟨8, [(1, 5)], [], .Continue⟩ : Reader).getItem 257 :=
  (C10_address_masking ⟨8, [(1, 5)], [], .Continue⟩ 1 257 0 (by decide)).1

/-- At a word-aligned bit-address `a * w` with `w = 2^s` and `a < 2^w`,
`bit_address_decompose` recovers `(a, 0)`. -/
lemma Reader.aligned_decompose (r : Reader) (a s : Nat) (hs : r.w = 2 ^ s)
    (hbl : pyBitLength r.w - 1 = s) (hmod : a % 2 ^ r.w = a) :
    r.bit_address_decompose (a * r.w) = (a, 0) := by
  have e1 : (a * r.w) >>> (pyBitLength r.w - 1) = a := by
    rw [hbl, Nat.shiftRight_eq_div_pow, hs]
    exact Nat.mul_div_cancel a (by positivity)
  have e2 : (a * r.w) &&& (r.w - 1) = 0 := by
    rw [hs, Nat.and_pow_two_sub_one_eq_mod, Nat.mul_mod_left]
  have e3 : a &&& ((1 <<< r.w) - 1) = a := by
    rw [shiftLeft_one_eq_pow, Nat.and_pow_two_sub_one_eq_mod, hmod]
  simp only [Reader.bit_address_decompose, e1, e2, e3]

/-- `get_word` on an aligned, mapped, in-range word index returns the
stored word. -/
lemma Reader.get_word_aligned (r : Reader) (a val : Nat)
    (hdec : r.bit_address_decompose (a * r.w) = (a, 0))
    (hmod : a % 2 ^ r.w = a) (hfound : dictLookup r.memory a = some val) :
    r.get_word (a * r.w) = .ok (val, r) := by
  have e3 : a &&& ((1 <<< r.w) - 1) = a := by
    rw [shiftLeft_one_eq_pow, Nat.and_pow_two_sub_one_eq_mod, hmod]
  simp [Reader.get_word, hdec, Reader.getItem, e3, hfound]

/-- **C5**: for every reader with `w ∈ {8,16,32,64}` and bit value
`v ∈ {0,1}`, a successful `write_bit(b, v)` followed by `read_bit(b)`
returns `v`; and `get_word` at the word-aligned bit-address `a·w` of a
mapped in-range word index `a` returns the stored word. -/
theorem C5_bit_round_trip (r r' : Reader) (b v : Nat)
    (hw : r.w = 8 ∨ r.w = 16 ∨ r.w = 32 ∨ r.w = 64)
    (hv : v = 0 ∨ v = 1)
    (hwr : r.write_bit b v = .ok r') :
    r'.read_bit b = .ok (v, r') ∧
    (∀ a val, a < 2 ^ r.w → dictLookup r.memory a = some val →
      r.get_word (a * r.w) = .ok (val, r)) := by
  constructor
  · have hwpos : 0 < r.w := by rcases hw with h | h | h | h <;> omega
    have hbit : (r.bit_address_decompose b).2 < r.w := by
      have h1 : (r.bit_address_decompose b).2 ≤ r.w - 1 := Nat.and_le_right
      omega
    simp only [Reader.write_bit] at hwr
    rcases r.getItem_cases (r.bit_address_decompose b).1 with herr | ⟨x, m, hok⟩
    · simp only [herr] at hwr; cases hwr
    · simp only [hok] at hwr
      rcases hv with hv | hv <;> subst hv
      · rw [if_neg (by simp)] at hwr
        injection hwr with hwr
        subst hwr
        rw [Reader.read_bit_after_setItem ({ r with memory := m }) b
          (x &&& ((1 <<< r.w) - 1 - 1 <<< (r.bit_address_decompose b).2))
          ((r.bit_address_decompose b).1) ((r.bit_address_decompose b).2) rfl]
        dsimp only
        rw [shiftRight_and_one, testBit_clear_branch x r.w _ hbit]
        simp
      · rw [if_pos (by simp)] at hwr
        injection hwr with hwr
        subst hwr
        rw [Reader.read_bit_after_setItem ({ r with memory := m }) b
          (x ||| 1 <<< (r.bit_address_decompose b).2)
          ((r.bit_address_decompose b).1) ((r.bit_address_decompose b).2) rfl]
        dsimp only
        rw [shiftRight_and_one, testBit_set_branch x r.w _ hbit]
        simp
  · intro a val hlt hfound
    have hmod : a % 2 ^ r.w = a := Nat.mod_eq_of_lt hlt
    rcases hw with h | h | h | h
    · exact r.get_word_aligned a val
        (r.aligned_decompose a 3 (by simp [h]) (by rw [h]; decide) hmod) hmod hfound
    · exact r.get_word_aligned a val
        (r.aligned_decompose a 4 (by simp [h]) (by rw [h]; decide) hmod) hmod hfound
    · exact r.get_word_aligned a val
        (r.aligned_decompose a 5 (by simp [h]) (by rw [h]; decide) hmod) hmod hfound
    · exact r.get_word_aligned a val
        (r.aligned_decompose a 6 (by simp [h]) (by rw [h]; decide) hmod) hmod hfound

/-- Witness for C5: with `w = 8`, writing bit 1 at bit-address 100
(word 12, bit 4) and reading it back yields 1. -/
theorem C5_bit_round_trip_witness :
    (⟨8, [(12, 23), (12, 7)], [], .Stop⟩ : Reader).read_bit 100 =
      .ok (1, ⟨8, [(12, 23), (12, 7)], [], .Stop⟩) :=
  (C5_bit_round_trip ⟨8, [(12, 7)], [], .Stop⟩ ⟨8, [(12, 23), (12, 7)], [], .Stop⟩
    100 1 (.inl rfl) (.inr rfl) rfl).1

/-! ## fjm_run.py — the interpreter loop

The interpreter's I/O adapter is embedded as a bit stream pair: `read_bit`
consumes the next input bit (raising `IOReadOnEOF`, i.e. `none`, when the
input is exhausted) and `write_bit` appends one output bit, matching the
`IODevice` interface consumed by `run`. -/

structure IoDevice where
  input : List Bool
  output : List Bool
deriving DecidableEq

def IoDevice.read_bit (io : IoDevice) : Option (Bool × IoDevice) :=
  match io.input with
  | [] => none
  | b :: rest => some (b, { io with input := rest })

def IoDevice.write_bit (io : IoDevice) (bit : Bool) : IoDevice :=
  { io with output := io.output ++ [bit] }

/-- `TerminationCause` values reachable inside `run`'s loop. -/
inductive TerminationCause where
  | Looping
  | NullIP
  | EOF
deriving DecidableEq

/-- `handle_output` from `fjm_run.py`: a flip at `2w` or `2w + 1` emits
one output bit (the bit is `1` exactly for address `2w + 1`). -/
def handle_output (flip_address : Nat) (io : IoDevice) (w : Nat) : IoDevice :=
  let out_addr := 2 * w
  if out_addr ≤ flip_address ∧ flip_address ≤ out_addr + 1 then
    io.write_bit (decide (out_addr + 1 = flip_address))
  else io

/-- The three possible outcomes of `handle_input`. -/
inductive InputResult where
  | eof
  | fail (e : FJReadError)
  | ok (io : IoDevice) (mem : Reader)
deriving DecidableEq

/-- `handle_input` from `fjm_run.py`: with `in_addr = 3*w + w.bit_length()`,
when `ip ≤ in_addr < ip + 2w` one input bit is read from the device
(EOF propagates as `IOReadOnEOF`) and written to `in_addr`. -/
def handle_input (io : IoDevice) (ip : Nat) (mem : Reader) : InputResult :=
  let w := mem.w
  let in_addr := 3 * w + pyBitLength w
  if ip ≤ in_addr ∧ in_addr < ip + 2 * w then
    match io.read_bit with
    | none => .eof
    | some (input_bit, io') =>
      match mem.write_bit in_addr (if input_bit then 1 else 0) with
      | .error e => .fail e
      | .ok mem' => .ok io' mem'
  else .ok io mem

structure RunState where
  ip : Nat
  mem : Reader
  io : IoDevice
deriving DecidableEq

/-- Outcome of one iteration of `run`'s `while True` loop: terminate with a
cause, propagate a reader exception, or continue at the next state. -/
inductive StepResult where
  | finished (cause : TerminationCause)
  | failed (e : FJReadError)
  | next (s : RunState)
deriving DecidableEq

/-- One iteration of the `while True` loop of `run` in `fjm_run.py`
(without the breakpoint hook and tracing, which do not affect the
machine state): read the flip word, handle output then input, flip the
bit, read the jump word, then check Looping before NullIP, else jump. -/
def step (s : RunState) : StepResult :=
  let w := s.mem.w
  match s.mem.get_word s.ip with
  | .error e => .failed e
  | .ok (flip_address, mem) =>
    let io := handle_output flip_address s.io w
    match handle_input io s.ip mem with
    | .eof => .finished .EOF
    | .fail e => .failed e
    | .ok io' mem' =>
      match mem'.read_bit flip_address with
      | .error e => .failed e
      | .ok (fb, mem2) =>
        match mem2.write_bit flip_address (if fb = 0 then 1 else 0) with
        | .error e => .failed e
        | .ok mem3 =>
          match mem3.get_word (s.ip + w) with
          | .error e => .failed e
          | .ok (jump_address, mem4) =>
            if jump_address = s.ip ∧ ¬(s.ip ≤ flip_address ∧ flip_address < s.ip + 2 * w) then
              .finished .Looping
            else if jump_address < 2 * w then
              .finished .NullIP
            else
              .next ⟨jump_address, mem4, io'⟩

/-- **C1**: once an interpreter step has read `flip` and `jump` and
performed the flip, the Looping check (`jump = ip` with the flip outside
the instruction's own two words) is evaluated before the NullIP check
(`jump < 2w`); in particular a self-loop at an `ip` below `2w` reports
Looping, not NullIP. -/
theorem C1_termination_check_order (s : RunState) (flip jump fb : Nat)
    (m1 m2 m3 m4 m5 : Reader) (io2 : IoDevice)
    (h1 : s.mem.get_word s.ip = .ok (flip, m1))
    (h2 : handle_input (handle_output flip s.io s.mem.w) s.ip m1 = .ok io2 m2)
    (h3 : m2.read_bit flip = .ok (fb, m3))
    (h4 : m3.write_bit flip (if fb = 0 then 1 else 0) = .ok m4)
    (h5 : m4.get_word (s.ip + s.mem.w) = .ok (jump, m5)) :
    (jump = s.ip ∧ ¬(s.ip ≤ flip ∧ flip < s.ip + 2 * s.mem.w) →
      step s = .finished .Looping) ∧
    (¬(jump = s.ip ∧ ¬(s.ip ≤ flip ∧ flip < s.ip + 2 * s.mem.w)) →
      jump < 2 * s.mem.w → step s = .finished .NullIP) ∧
    (jump = s.ip ∧ s.ip < 2 * s.mem.w ∧ (flip < s.ip ∨ s.ip + 2 * s.mem.w ≤ flip) →
      step s = .finished .Looping) := by
  have hs : step s =
      if jump = s.ip ∧ ¬(s.ip ≤ flip ∧ flip < s.ip + 2 * s.mem.w) then
        .finished .Looping
      else if jump < 2 * s.mem.w then
        .finished .NullIP
      else
        .next ⟨jump, m5, io2⟩ := by
    simp only [step, h1, h2, h3, h4, h5]
  refine ⟨fun h => by rw [hs, if_pos h],
          fun hn hlt => by rw [hs, if_neg hn, if_pos hlt],
          fun h => by rw [hs, if_pos ⟨h.1, by omega⟩]⟩

/-- Witness for C1: a concrete image (`w = 8`, `ip = 8 < 2w`) whose
instruction flips bit 100 (outside its own words) and jumps to itself
terminates in one step with Looping (not NullIP, although `ip < 2w`). -/
theorem C1_termination_check_order_witness :
    step ⟨8, ⟨8, [(1, 100), (12, 0), (2, 8)], [], .Stop⟩, ⟨[], []⟩⟩ =
      .finished .Looping :=
  (C1_termination_check_order
    ⟨8, ⟨8, [(1, 100), (12, 0), (2, 8)], [], .Stop⟩, ⟨[], []⟩⟩
    100 8 0 _ _ _ _ _ _ rfl rfl rfl rfl rfl).1 (by decide)

/-- **C2, counterexample**: for `w = 8` the bit-address `3w + log2(w) = 27`
is inside the window `[ip, ip + 2w)` for `ip = 12`, yet `handle_input`
pulls no input bit there (the adapter state is returned unchanged): the
watched address is not `3w + log2(w)`. -/
theorem C2_counterexample :
    (12 ≤ 3 * 8 + Nat.log2 8 ∧ 3 * 8 + Nat.log2 8 < 12 + 2 * 8) ∧
    handle_input ⟨[true], []⟩ 12 ⟨8, [(0, 0)], [], .Stop⟩ =
      .ok ⟨[true], []⟩ ⟨8, [(0, 0)], [], .Stop⟩ := by
  constructor
  · have h8 : Nat.log2 8 = 3 := by
      rw [Nat.log2, if_pos (by norm_num), Nat.log2, if_pos (by norm_num),
        Nat.log2, if_pos (by norm_num), Nat.log2, if_neg (by norm_num)]
    rw [h8]
    omega
  · rfl

/-- **C2, amended**: the reserved input bit-address is
`3w + w.bit_length()` (which is `3w + log2(w) + 1` for the power-of-two
word sizes): `handle_input` pulls one input bit and writes it there via
`write_bit` exactly when `ip ≤ 3w + bit_length(w) < ip + 2w`, and leaves
the device and memory untouched otherwise (EOF propagates). -/
theorem C2_input_address (io : IoDevice) (ip : Nat) (mem : Reader) :
    (¬(ip ≤ 3 * mem.w + pyBitLength mem.w ∧
        3 * mem.w + pyBitLength mem.w < ip + 2 * mem.w) →
      handle_input io ip mem = .ok io mem) ∧
    ((ip ≤ 3 * mem.w + pyBitLength mem.w ∧
        3 * mem.w + pyBitLength mem.w < ip + 2 * mem.w) →
      (io.input = [] → handle_input io ip mem = .eof) ∧
      (∀ b rest, io.input = b :: rest →
        handle_input io ip mem =
          match mem.write_bit (3 * mem.w + pyBitLength mem.w) (if b then 1 else 0) with
          | .error e => .fail e
          | .ok mem' => .ok ⟨rest, io.output⟩ mem')) ∧
    ((mem.w = 8 ∨ mem.w = 16 ∨ mem.w = 32 ∨ mem.w = 64) →
      3 * mem.w + pyBitLength mem.w = 3 * mem.w + Nat.log2 mem.w + 1) := by
  refine ⟨?_, ?_, ?_⟩
  · intro hn
    simp [handle_input, hn]
  · intro hc
    constructor
    · intro hemp
      simp [handle_input, hc, IoDevice.read_bit, hemp]
    · intro b rest hbr
      simp only [handle_input, if_pos hc, IoDevice.read_bit, hbr]
  · intro hw
    have h8 : Nat.log2 8 = 3 := by
      rw [Nat.log2, if_pos (by norm_num), Nat.log2, if_pos (by norm_num),
        Nat.log2, if_pos (by norm_num), Nat.log2, if_neg (by norm_num)]
    have h16 : Nat.log2 16 = 4 := by
      rw [Nat.log2, if_pos (by norm_num), h8]
    have h32 : Nat.log2 32 = 5 := by
      rw [Nat.log2, if_pos (by norm_num), h16]
    have h64 : Nat.log2 64 = 6 := by
      rw [Nat.log2, if_pos (by norm_num), h32]
    rcases hw with h | h | h | h <;> rw [h] <;>
      simp [pyBitLength, bitLenGo, h8, h16, h32, h64]

/-- Witness for C2 (amended): with `w = 8` and the window `[20, 52)`
covering `in_addr = 28`, one input bit is consumed and bit 28 (word 3,
bit 4) is set in memory. -/
theorem C2_input_address_witness :
    handle_input ⟨[true], []⟩ 20 ⟨8, [(3, 0)], [], .Stop⟩ =
      .ok ⟨[], []⟩ ⟨8, [(3, 16), (3, 0)], [], .Stop⟩ :=
  ((C2_input_address ⟨[true], []⟩ 20 ⟨8, [(3, 0)], [], .Stop⟩).2.1
    (by decide)).2 true [] rfl

/-! ## fjm.py — header validation (the Reader's loader) -/

/-- The header fields read by `Reader._init_header_fields` that
`_validate_header` inspects (for version 0 the `reserved` field is set
to 0 without reading it from the file). -/
structure Header where
  magic : Nat
  w : Nat
  version : Nat
  reserved : Nat
deriving DecidableEq

/-- `Reader._validate_header`: returns the raised error, if any.  It
checks the magic code, the version and the reserved field — and nothing
else. -/
def validate_header (h : Header) : Option FJReadError :=
  if h.magic ≠ fj_magic then some .BadMagic
  else if h.version ∉ SUPPORTED_VERSIONS then some .UnsupportedVersion
  else if h.reserved ≠ 0 then some .BadReserved
  else none

/-- `Reader._read_data`'s unpack-tag table `{8: 'B', 16: 'H', 32: 'L',
64: 'Q'}[self.w]`: a word size outside {8,16,32,64} is a failing dict
lookup (a Python `KeyError`, which is not an `FJReadFjmException`). -/
def read_tag (w : Nat) : Option Char :=
  if w = 8 then some 'B'
  else if w = 16 then some 'H'
  else if w = 32 then some 'L'
  else if w = 64 then some 'Q'
  else none

/-- **C6, counterexample**: a header with the correct magic, version 0 and
reserved 0 but word size 12 ∉ {8,16,32,64} passes `_validate_header`
without any error — the header validation does not reject bad word
sizes (the failure only surfaces later, as `read_tag`'s failing lookup
in `_read_data`, which is not the file-format error). -/
theorem C6_counterexample :
    validate_header ⟨0x4A46, 12, 0, 0⟩ = none ∧
    ¬(12 = 8 ∨ 12 = 16 ∨ 12 = 32 ∨ 12 = 64) ∧
    read_tag 12 = none := by
  refine ⟨rfl, by decide, rfl⟩

/-- **C6, amended**: `_validate_header` raises the file-format error
exactly for a magic different from 0x4A46, a version outside {0, 1} or a
nonzero reserved field; the word size is not validated. -/
theorem C6_validate_header (h : Header) :
    validate_header h = none ↔
      (h.magic = fj_magic ∧ h.version ∈ SUPPORTED_VERSIONS ∧ h.reserved = 0) := by
  unfold validate_header
  split
  · simp_all
  · split
    · simp_all
    · split <;> simp_all

/-! ## fjm.py — the Writer and its segment table -/

/-- The distinct failure points of `Writer.add_segment`
(`FJWriteFjmException` call sites). -/
inductive FJWriteError where
  | DataLongerThanSegment
  | SegmentsOverlap
deriving DecidableEq

/-- A segment descriptor
`(segment_start, segment_length, data_start, data_length)`, in words. -/
abbrev Segment := Nat × Nat × Nat × Nat

structure Writer where
  word_size : Nat
  segments : List Segment
  data : List Nat
deriving DecidableEq

/-- `Writer._is_segment_collision`, on the closed word-index intervals
`[start1, end1]` and `[start2, end2]` (the `end`s may be `start - 1`,
hence `Int`). -/
def is_segment_collision (start1 end1 start2 end2 : Int) : Bool :=
  ([start1, end1].any fun a => decide (start2 ≤ a) && decide (a ≤ end2)) ||
  ([start2, end2].any fun a => decide (start1 ≤ a) && decide (a ≤ end1))

/-- `Writer._validate_segment_not_overlapping`: whether the overlap error
is raised for the candidate segment. -/
def validate_segment_not_overlapping (segments : List Segment)
    (new_start new_length : Nat) : Bool :=
  segments.any fun seg =>
    is_segment_collision seg.1 ((seg.1 : Int) + seg.2.1 - 1)
      new_start ((new_start : Int) + new_length - 1)

/-- `Writer.add_segment`. -/
def Writer.add_segment (wr : Writer)
    (segment_start segment_length data_start data_length : Nat) :
    Except FJWriteError Writer :=
  if segment_length < data_length then .error .DataLongerThanSegment
  else if validate_segment_not_overlapping wr.segments segment_start segment_length then
    .error .SegmentsOverlap
  else .ok { wr with segments :=
    wr.segments ++ [(segment_start, segment_length, data_start, data_length)] }

/-- Two segments' word-address ranges `[start, start+length)` intersect. -/
def segsIntersect (a b : Segment) : Prop :=
  ∃ x, (a.1 ≤ x ∧ x < a.1 + a.2.1) ∧ (b.1 ≤ x ∧ x < b.1 + b.2.1)

/-- The invariant of a writer's segment table: pairwise non-overlapping
address ranges, and `data_length ≤ segment_length` for each segment. -/
def SegInv (segs : List Segment) : Prop :=
  segs.Pairwise (fun a b => ¬ segsIntersect a b) ∧
  ∀ s ∈ segs, s.2.2.2 ≤ s.2.1

/-- A genuine range intersection is always flagged by
`_is_segment_collision`. -/
lemma intersect_collision (s t : Segment) (h : segsIntersect s t) :
    is_segment_collision s.1 ((s.1 : Int) + s.2.1 - 1) t.1 ((t.1 : Int) + t.2.1 - 1) = true := by
  obtain ⟨x, ⟨hs1, hs2⟩, ht1, ht2⟩ := h
  simp only [is_segment_collision, List.any_cons, List.any_nil, Bool.or_eq_true,
    Bool.and_eq_true, decide_eq_true_eq, Bool.or_false]
  omega

/-- **C7**: `add_segment` rejects `data_length > segment_length`, rejects
a candidate whose word-address range intersects a previously added
segment's range, and therefore preserves the invariant that the segment
table is pairwise non-overlapping with `data_length ≤ segment_length`
throughout every successful sequence of calls. -/
theorem C7_add_segment (wr : Writer) (ss sl ds dl : Nat) :
    (sl < dl → wr.add_segment ss sl ds dl = .error .DataLongerThanSegment) ∧
    (dl ≤ sl → (∃ s ∈ wr.segments, segsIntersect s (ss, sl, ds, dl)) →
      wr.add_segment ss sl ds dl = .error .SegmentsOverlap) ∧
    (∀ wr', SegInv wr.segments → wr.add_segment ss sl ds dl = .ok wr' →
      SegInv wr'.segments) := by
  refine ⟨?_, ?_, ?_⟩
  · intro h
    simp [Writer.add_segment, h]
  · rintro hle ⟨s, hs, hint⟩
    have hcol : validate_segment_not_overlapping wr.segments ss sl = true := by
      simp only [validate_segment_not_overlapping, List.any_eq_true]
      exact ⟨s, hs, intersect_collision s (ss, sl, ds, dl) hint⟩
    simp [Writer.add_segment, Nat.not_lt.mpr hle, hcol]
  · intro wr' hinv hok
    simp only [Writer.add_segment] at hok
    by_cases h1 : sl < dl
    · simp [h1] at hok
    · rw [if_neg h1] at hok
      by_cases h2 : validate_segment_not_overlapping wr.segments ss sl = true
      · simp [h2] at hok
      · rw [if_neg h2] at hok
        injection hok with hok
        subst hok
        constructor
        · rw [List.pairwise_append]
          refine ⟨hinv.1, List.pairwise_singleton _ _, ?_⟩
          intro a ha b hb
          rcases List.mem_singleton.mp hb with rfl
          intro hint
          apply h2
          simp only [validate_segment_not_overlapping, List.any_eq_true]
          exact ⟨a, ha, intersect_collision a _ hint⟩
        · intro s hsmem
          rcases List.mem_append.mp hsmem with h | h
          · exact hinv.2 s h
          · rcases List.mem_singleton.mp h with rfl
            simpa using Nat.not_lt.mp h1

/-- Witness for C7: adding the range `[1, 4)` over an existing segment
covering `[0, 2)` raises the overlap error. -/
theorem C7_add_segment_witness :
    (⟨8, [(0, 2, 0, 2)], []⟩ : Writer).add_segment 1 3 0 3 =
      .error .SegmentsOverlap :=
  (C7_add_segment ⟨8, [(0, 2, 0, 2)], []⟩ 1 3 0 3).2.1 (by omega)
    ⟨(0, 2, 0, 2), by simp, 1, by constructor <;> constructor <;> norm_num⟩

/-! ## io_devices/StandardIO.py — the standard device's output side -/

inductive IOWriteError where
  | IncompleteOutput
deriving DecidableEq

/-- The output-side state of `StandardIO`: the accumulated `_output`
bytes, the byte being assembled and how many bits it already holds. -/
structure StandardIoOutput where
  output : List Nat
  current_output_byte : Nat
  bits_to_write_in_output_byte : Nat
deriving DecidableEq

/-- The state set up by `StandardIO.__init__`. -/
def standardIoInit : StandardIoOutput := ⟨[], 0, 0⟩

/-- `StandardIO.write_bit`: or the bit into the current byte at position
`bits_to_write_in_output_byte`; after the 8th bit, flush the byte to
`_output` and reset. -/
def StandardIoOutput.write_bit (st : StandardIoOutput) (bit : Bool) : StandardIoOutput :=
  let cur := st.current_output_byte |||
    ((if bit then 1 else 0) <<< st.bits_to_write_in_output_byte)
  let cnt := st.bits_to_write_in_output_byte + 1
  if cnt = 8 then ⟨st.output ++ [cur], 0, 0⟩ else ⟨st.output, cur, cnt⟩

/-- A sequence of `write_bit` calls, in program order. -/
def StandardIoOutput.write_bits (st : StandardIoOutput) (bits : List Bool) :
    StandardIoOutput :=
  bits.foldl StandardIoOutput.write_bit st

/-- `StandardIO.get_output`. -/
def StandardIoOutput.get_output (st : StandardIoOutput) : Except IOWriteError (List Nat) :=
  if st.bits_to_write_in_output_byte ≠ 0 then .error .IncompleteOutput
  else .ok st.output

/-- The byte described by the claim: bit `k` of the byte is the
`(k+1)`-th bit written, i.e. LSB-first assembly. -/
def byteOfBits (b0 b1 b2 b3 b4 b5 b6 b7 : Bool) : Nat :=
  (if b0 then 1 else 0) + 2 * (if b1 then 1 else 0) + 4 * (if b2 then 1 else 0) +
  8 * (if b3 then 1 else 0) + 16 * (if b4 then 1 else 0) + 32 * (if b5 then 1 else 0) +
  64 * (if b6 then 1 else 0) + 128 * (if b7 then 1 else 0)

/-- The bytes described by the claim: each group of 8 consecutive bits,
in emission order, assembled LSB-first. -/
def bytesOfBits : List Bool → List Nat
  | b0 :: b1 :: b2 :: b3 :: b4 :: b5 :: b6 :: b7 :: rest =>
    byteOfBits b0 b1 b2 b3 b4 b5 b6 b7 :: bytesOfBits rest
  | _ => []

/-- Eight consecutive `write_bit` calls starting byte-aligned flush
exactly one byte, assembled LSB-first. -/
lemma write_bits_eight (out : List Nat) (b0 b1 b2 b3 b4 b5 b6 b7 : Bool)
    (rest : List Bool) :
    StandardIoOutput.write_bits ⟨out, 0, 0⟩
        (b0 :: b1 :: b2 :: b3 :: b4 :: b5 :: b6 :: b7 :: rest) =
      StandardIoOutput.write_bits
        ⟨out ++ [byteOfBits b0 b1 b2 b3 b4 b5 b6 b7], 0, 0⟩ rest := by
  simp only [StandardIoOutput.write_bits, List.foldl, StandardIoOutput.write_bit]
  norm_num [byteOfBits]
  cases b0 <;> cases b1 <;> cases b2 <;> cases b3 <;>
    cases b4 <;> cases b5 <;> cases b6 <;> cases b7 <;> rfl

/-- Fewer than `8 - cnt` further bits never flush: the output list is
unchanged and the bit counter advances by the number of bits written. -/
lemma write_bits_under_eight : ∀ (bits : List Bool) (out : List Nat) (cur cnt : Nat),
    cnt + bits.length < 8 →
    (StandardIoOutput.write_bits ⟨out, cur, cnt⟩ bits).output = out ∧
    (StandardIoOutput.write_bits ⟨out, cur, cnt⟩ bits).bits_to_write_in_output_byte =
      cnt + bits.length := by
  intro bits
  induction bits with
  | nil =>
    intro out cur cnt h
    simp [StandardIoOutput.write_bits]
  | cons b tl ih =>
    intro out cur cnt h
    have h' : cnt + (tl.length + 1) < 8 := by
      simp only [List.length_cons] at h; omega
    have hlen : cnt + (b :: tl).length = (cnt + 1) + tl.length := by
      simp only [List.length_cons]; omega
    have hone : StandardIoOutput.write_bit ⟨out, cur, cnt⟩ b =
        ⟨out, cur ||| ((if b then 1 else 0) <<< cnt), cnt + 1⟩ := by
      simp only [StandardIoOutput.write_bit]
      rw [if_neg (by omega)]
    have hstep : StandardIoOutput.write_bits ⟨out, cur, cnt⟩ (b :: tl) =
        StandardIoOutput.write_bits
          ⟨out, cur ||| ((if b then 1 else 0) <<< cnt), cnt + 1⟩ tl := by
      simp only [StandardIoOutput.write_bits, List.foldl, hone]
    rw [hstep, hlen]
    exact ih out _ (cnt + 1) (by omega)

/-- From a byte-aligned state, a bit sequence appends exactly its grouped
bytes and leaves `length % 8` residual bits. -/
lemma write_bits_out_cnt : ∀ (bits : List Bool) (out : List Nat),
    (StandardIoOutput.write_bits ⟨out, 0, 0⟩ bits).output = out ++ bytesOfBits bits ∧
    (StandardIoOutput.write_bits ⟨out, 0, 0⟩ bits).bits_to_write_in_output_byte =
      bits.length % 8 := by
  intro bits
  induction bits using bytesOfBits.induct with
  | case1 b0 b1 b2 b3 b4 b5 b6 b7 rest ih =>
    intro out
    rw [write_bits_eight]
    obtain ⟨h1, h2⟩ := ih (out ++ [byteOfBits b0 b1 b2 b3 b4 b5 b6 b7])
    refine ⟨?_, ?_⟩
    · rw [h1, bytesOfBits, List.append_assoc, List.singleton_append]
    · rw [h2]
      simp only [List.length_cons]
      omega
  | case2 bits hne =>
    intro out
    rcases bits with _ | ⟨b0, _ | ⟨b1, _ | ⟨b2, _ | ⟨b3, _ | ⟨b4, _ | ⟨b5,
      _ | ⟨b6, _ | ⟨b7, rest⟩⟩⟩⟩⟩⟩⟩⟩ <;>
      first
        | exact (hne _ _ _ _ _ _ _ _ _ rfl).elim
        | exact ⟨(write_bits_under_eight _ out 0 0 (by simp)).1.trans
                   (by simp [bytesOfBits]),
                 (write_bits_under_eight _ out 0 0 (by simp)).2.trans (by simp)⟩

/-- **C8**: from a fresh `StandardIO`, each output byte is assembled
LSB-first from 8 consecutive `write_bit` calls; after `n` calls,
`get_output` returns the assembled bytes in emission order when `8 ∣ n`
and raises the incomplete-output error exactly when `8 ∤ n`. -/
theorem C8_standard_output (bits : List Bool) :
    (bits.length % 8 = 0 →
      (standardIoInit.write_bits bits).get_output = .ok (bytesOfBits bits)) ∧
    (bits.length % 8 ≠ 0 →
      (standardIoInit.write_bits bits).get_output = .error .IncompleteOutput) := by
  obtain ⟨h1, h2⟩ := write_bits_out_cnt bits []
  constructor
  · intro h8
    simp only [standardIoInit, StandardIoOutput.get_output, h1, h2, h8]
    simp
  · intro h8
    simp only [standardIoInit, StandardIoOutput.get_output, h1, h2]
    simp [h8]

/-- Witness for C8: the bit sequence `1,0,0,0,0,0,1,0` (LSB first)
assembles to the single byte 65 (`'A'`). -/
theorem C8_standard_output_witness :
    (standardIoInit.write_bits
      [true, false, false, false, false, false, true, false]).get_output =
      .ok [65] :=
  (C8_standard_output
    [true, false, false, false, false, false, true, false]).1 rfl

/-! ## fj_parser.py — the expression semantic actions

The values flowing through the parser's `_expr` rules are Python runtime
objects.  `defs.py` is not among the sources, so its `Expr` class is
modelled from the spec: an `Expr` wraps an integer leaf, a label-name
leaf, or an operator node `(op, operands)` (spec §3); the `_expr` leaf
rules wrap their token values in `Expr(...)` accordingly. -/

/-- A Python runtime value on the parser's semantic stack: an `int`
instance, a first-class type object (such as the type `int` itself), or
an `Expr` object (flattened into the three `expr*` constructors). -/
inductive PyVal where
  | intObj (n : Int)
  | typeObj (name : String)
  | exprInt (n : Int)
  | exprStr (s : String)
  | exprNode (op : String) (args : List PyVal)

/-- The Python test `a is int`: identity with the type object `int`.  It
holds only for the type object itself, never for an `int` instance or an
`Expr` instance. -/
def py_is_int : PyVal → Bool
  | .typeObj s => s == "int"
  | _ => false

/-- Whether a parse result is a single folded integer constant
(an `Expr` wrapping an int). -/
def isFoldedIntConstant : Option PyVal → Bool
  | some (.exprInt _) => true
  | _ => false

/-- Whether a value is an `Expr` instance. -/
def isExprObj : PyVal → Bool
  | .exprInt _ => true
  | .exprStr _ => true
  | .exprNode _ _ => true
  | _ => false

/-- The `NUMBER` (and `STRING`, whose token value is also an int) leaf
rule: `return Expr(p.NUMBER), p.lineno`. -/
def expr_number (n : Int) : PyVal := .exprInt n

/-- `_expr "+" _expr`: `if a is int and b is int: return Expr(a + b)`;
since the test holds only for the type object, the fold branch would
evaluate `int + int` on the type objects — a `TypeError` (`none`);
otherwise a residual node `Expr(('+', (a, b)))`. -/
def expr_add (a b : PyVal) : Option PyVal :=
  if py_is_int a && py_is_int b then none
  else some (.exprNode "+" [a, b])

/-- `_expr "-" _expr`; fold branch as in `expr_add`. -/
def expr_sub (a b : PyVal) : Option PyVal :=
  if py_is_int a && py_is_int b then none
  else some (.exprNode "-" [a, b])

/-- `_expr "*" _expr`; fold branch as in `expr_add`. -/
def expr_mul (a b : PyVal) : Option PyVal :=
  if py_is_int a && py_is_int b then none
  else some (.exprNode "*" [a, b])

/-- `_expr "/" _expr`; fold branch as in `expr_add`. -/
def expr_div (a b : PyVal) : Option PyVal :=
  if py_is_int a && py_is_int b then none
  else some (.exprNode "/" [a, b])

/-- `_expr "%" _expr`; fold branch as in `expr_add`. -/
def expr_mod (a b : PyVal) : Option PyVal :=
  if py_is_int a && py_is_int b then none
  else some (.exprNode "%" [a, b])

/-- `_expr SHL _expr`; fold branch as in `expr_add`. -/
def expr_shl (a b : PyVal) : Option PyVal :=
  if py_is_int a && py_is_int b then none
  else some (.exprNode "<<" [a, b])

/-- `_expr SHR _expr`; fold branch as in `expr_add`. -/
def expr_shr (a b : PyVal) : Option PyVal :=
  if py_is_int a && py_is_int b then none
  else some (.exprNode ">>" [a, b])

/-- `_expr "^" _expr`; fold branch as in `expr_add`. -/
def expr_xor (a b : PyVal) : Option PyVal :=
  if py_is_int a && py_is_int b then none
  else some (.exprNode "^" [a, b])

/-- `_expr "|" _expr`; fold branch as in `expr_add`. -/
def expr_or (a b : PyVal) : Option PyVal :=
  if py_is_int a && py_is_int b then none
  else some (.exprNode "|" [a, b])

/-- `_expr "&" _expr`; fold branch as in `expr_add`. -/
def expr_and (a b : PyVal) : Option PyVal :=
  if py_is_int a && py_is_int b then none
  else some (.exprNode "&" [a, b])

/-- `_expr "<" _expr`; the fold branch would compare the type objects
(`TypeError` in Python 3). -/
def expr_lt (a b : PyVal) : Option PyVal :=
  if py_is_int a && py_is_int b then none
  else some (.exprNode "<" [a, b])

/-- `_expr ">" _expr`; fold branch as in `expr_lt`. -/
def expr_gt (a b : PyVal) : Option PyVal :=
  if py_is_int a && py_is_int b then none
  else some (.exprNode ">" [a, b])

/-- `_expr LE _expr`; fold branch as in `expr_lt`. -/
def expr_le (a b : PyVal) : Option PyVal :=
  if py_is_int a && py_is_int b then none
  else some (.exprNode "<=" [a, b])

/-- `_expr GE _expr`; fold branch as in `expr_lt`. -/
def expr_ge (a b : PyVal) : Option PyVal :=
  if py_is_int a && py_is_int b then none
  else some (.exprNode ">=" [a, b])

/-- `_expr EQ _expr`: in the (unreachable) fold branch both operands are
the type object `int`, so `a == b` is `True` and `Expr(1)` results. -/
def expr_eq (a b : PyVal) : Option PyVal :=
  if py_is_int a && py_is_int b then some (.exprInt 1)
  else some (.exprNode "==" [a, b])

/-- `_expr NEQ _expr`: dual of `expr_eq` (`Expr(0)` in the fold branch). -/
def expr_neq (a b : PyVal) : Option PyVal :=
  if py_is_int a && py_is_int b then some (.exprInt 0)
  else some (.exprNode "!=" [a, b])

/-- `_expr "?" _expr ":" _expr`: in the (unreachable) fold branch the
truthy type object selects `b` — the type `int` — and `Expr` is applied
to a type object, outside the modelled `Expr` constructor (`none`). -/
def expr_ternary (a b c : PyVal) : Option PyVal :=
  if py_is_int a && py_is_int b && py_is_int c then none
  else some (.exprNode "?:" [a, b, c])

/-- `"#" _expr`: the fold branch would call `int.bit_length()` on the
bare type object — a `TypeError` (`none`). -/
def expr_hashlen (a : PyVal) : Option PyVal :=
  if py_is_int a then none
  else some (.exprNode "#" [a])

/-- **C3, counterexample**: both operands of `+` are the integer
constants `Expr(1)` and `Expr(2)`, yet the rule produces the residual
node `Expr(('+', (Expr(1), Expr(2))))`, not a folded constant: the
`a is int` identity test is false for `Expr` instances, so parse-time
folding never happens. -/
theorem C3_counterexample :
    expr_add (expr_number 1) (expr_number 2) =
      some (.exprNode "+" [.exprInt 1, .exprInt 2]) ∧
    isFoldedIntConstant (expr_add (expr_number 1) (expr_number 2)) = false :=
  ⟨rfl, rfl⟩

/-- **C3, amended**: the values produced by the `_expr` rules are always
`Expr` objects, and on `Expr` objects every operator rule — all binary
operators and unary `#` — takes the residual branch: the parser never
folds constants at parse time (evaluation happens later, e.g. via
`eval_new` at a constant assignment). -/
theorem C3_no_parse_time_folding (a b c : PyVal)
    (ha : isExprObj a = true) (hb : isExprObj b = true) (hc : isExprObj c = true) :
    expr_add a b = some (.exprNode "+" [a, b]) ∧
    expr_sub a b = some (.exprNode "-" [a, b]) ∧
    expr_mul a b = some (.exprNode "*" [a, b]) ∧
    expr_div a b = some (.exprNode "/" [a, b]) ∧
    expr_mod a b = some (.exprNode "%" [a, b]) ∧
    expr_shl a b = some (.exprNode "<<" [a, b]) ∧
    expr_shr a b = some (.exprNode ">>" [a, b]) ∧
    expr_xor a b = some (.exprNode "^" [a, b]) ∧
    expr_or a b = some (.exprNode "|" [a, b]) ∧
    expr_and a b = some (.exprNode "&" [a, b]) ∧
    expr_lt a b = some (.exprNode "<" [a, b]) ∧
    expr_gt a b = some (.exprNode ">" [a, b]) ∧
    expr_le a b = some (.exprNode "<=" [a, b]) ∧
    expr_ge a b = some (.exprNode ">=" [a, b]) ∧
    expr_eq a b = some (.exprNode "==" [a, b]) ∧
    expr_neq a b = some (.exprNode "!=" [a, b]) ∧
    expr_ternary a b c = some (.exprNode "?:" [a, b, c]) ∧
    expr_hashlen a = some (.exprNode "#" [a]) := by
  have ha' : py_is_int a = false := by
    cases a <;> simp_all [isExprObj, py_is_int]
  have hb' : py_is_int b = false := by
    cases b <;> simp_all [isExprObj, py_is_int]
  have hc' : py_is_int c = false := by
    cases c <;> simp_all [isExprObj, py_is_int]
  refine ⟨?_, ?_, ?_, ?_, ?_, ?_, ?_, ?_, ?_, ?_, ?_, ?_, ?_, ?_, ?_, ?_, ?_, ?_⟩ <;>
    simp [expr_add, expr_sub, expr_mul, expr_div, expr_mod, expr_shl, expr_shr,
      expr_xor, expr_or, expr_and, expr_lt, expr_gt, expr_le, expr_ge, expr_eq,
      expr_neq, expr_ternary, expr_hashlen, ha', hb', hc']

/-- Witness for C3 (amended): the `+` rule on the constants `Expr(1)`,
`Expr(2)` yields the residual node. -/
theorem C3_no_parse_time_folding_witness :
    expr_add (.exprInt 1) (.exprInt 2) =
      some (.exprNode "+" [.exprInt 1, .exprInt 2]) :=
  (C3_no_parse_time_folding (.exprInt 1) (.exprInt 2) (.exprInt 0)
    rfl rfl rfl).1

/-! ## fj_parser.py — dot-identifier namespace resolution -/

/-- Python's prefix slice `l[:k]` for a possibly negative `k`:
a negative `k` counts from the end (clamped at 0). -/
def pySliceTo (l : List String) (k : Int) : List String :=
  if k < 0 then l.take (l.length - (-k).toNat) else l.take k.toNat

/-- `FJParser.dot_id_to_ns_full_name`: strip the leading dots; with no
dots the name is returned unchanged; with `d ≥ 1` dots, `syntax_error`
is recorded (first component) iff `d - 1 > len(curr_namespace)`, and the
result joins `curr_namespace[:len(curr_namespace)-(d-1)]` with the bare
name (`syntax_error` does not abort: the join is returned regardless). -/
def dot_id_to_ns_full_name (curr_namespace : List String) (base_name : String) :
    Bool × String :=
  let chars := base_name.toList
  let without_dots := chars.dropWhile (fun ch => ch == '.')
  if without_dots.length = chars.length then (false, base_name)
  else
    let num_of_dots := chars.length - without_dots.length
    (decide ((num_of_dots : Int) - 1 > (curr_namespace.length : Int)),
     String.intercalate "."
       (pySliceTo curr_namespace
          ((curr_namespace.length : Int) - ((num_of_dots : Int) - 1))
        ++ [String.mk without_dots]))

/-- **C9, counterexample**: inside namespace `a.b`, the dot-identifier
`.c` resolves without error to `a.b.c` — one leading dot peels zero
segments, not one, so the claim's `a.c` is wrong. -/
theorem C9_counterexample :
    dot_id_to_ns_full_name ["a", "b"] ".c" = (false, "a.b.c") ∧
    ("a.b.c" : String) ≠ "a.c" := by
  refine ⟨by decide, by decide⟩

lemma length_dropWhile_le (p : Char → Bool) (l : List Char) :
    (l.dropWhile p).length ≤ l.length := by
  induction l with
  | nil => simp [List.dropWhile]
  | cons a t ih =>
    rw [List.dropWhile]
    cases hpa : p a
    · simp
    · simp
      omega

/-- **C9, amended**: a dot-identifier with `d ≥ 1` leading dots under a
namespace stack of depth `n` peels `d - 1` segments (not `d`) before
appending the bare name, and the parser records a syntax error exactly
when `d - 1` exceeds `n` (in particular, inside `a.b`, `.c` resolves to
`a.b.c` and `..c` to `a.c`). -/
theorem C9_dot_resolution (ns : List String) (base : String)
    (hdots : (base.toList.dropWhile (fun ch => ch == '.')).length ≠
      base.toList.length) :
    (base.toList.length - (base.toList.dropWhile (fun ch => ch == '.')).length - 1 ≤
        ns.length →
      dot_id_to_ns_full_name ns base =
        (false, String.intercalate "."
          (ns.take (ns.length - (base.toList.length -
              (base.toList.dropWhile (fun ch => ch == '.')).length - 1))
            ++ [String.mk (base.toList.dropWhile (fun ch => ch == '.'))]))) ∧
    (base.toList.length - (base.toList.dropWhile (fun ch => ch == '.')).length - 1 >
        ns.length →
      (dot_id_to_ns_full_name ns base).1 = true) := by
  have hle : (base.toList.dropWhile (fun ch => ch == '.')).length ≤
      base.toList.length := length_dropWhile_le _ _
  constructor
  · intro hd
    simp only [dot_id_to_ns_full_name, if_neg hdots]
    refine Prod.ext ?_ ?_
    · simp only [decide_eq_false_iff_not]
      omega
    · simp only [pySliceTo]
      rw [if_neg (by omega)]
      rw [show ((ns.length : Int) -
          (((base.toList.length - (base.toList.dropWhile (fun ch => ch == '.')).length :
            Nat) : Int) - 1)).toNat =
          ns.length - (base.toList.length -
            (base.toList.dropWhile (fun ch => ch == '.')).length - 1) from by omega]
  · intro hd
    simp only [dot_id_to_ns_full_name, if_neg hdots, decide_eq_true_eq]
    omega

/-- Witness for C9 (amended): inside namespace `a.b`, `..c` (two dots,
peeling one segment) resolves without error to `a.c`. -/
theorem C9_dot_resolution_witness :
    dot_id_to_ns_full_name ["a", "b"] "..c" = (false, "a.c") :=
  (C9_dot_resolution ["a", "b"] "..c" (by decide)).1 (by decide)
